import Mathlib

/-!
A shallow embedding of the core chain engine of the `ledger` repository
(crates `ledger-core` and `ledger-storage`), together with theorems that
settle the specification claims about it.

Bytes and byte strings are modelled as `Nat` and `List Nat` (each element a
byte value, reduced modulo 256 where the source performs machine arithmetic).
The SHA-256 function used by the source through the `sha2` crate is embedded
executably below, and is validated against the hash test vectors that appear
in the repository test suite.
-/

namespace Ledger

/-- 2^32, the modulus for 32-bit word arithmetic inside SHA-256. -/
def U32MOD : Nat := 4294967296

/-- 2^64, the modulus for the 64-bit integers of the source (`u64`). -/
def U64MOD : Nat := 18446744073709551616

/-- A hash digest: a list of byte values.  The source type is `[u8; 32]`. -/
abbrev Hash : Type := List Nat

/-- The all-zero 32-byte value `[0u8; HASH_SIZE]`. -/
def zeros32 : Hash := List.replicate 32 0

/-- Right rotation of a 32-bit word by `n` bits. -/
def rotr32 (n x : Nat) : Nat :=
  ((x >>> n) ||| (x <<< (32 - n))) &&& 0xFFFFFFFF

/-- SHA-256 small sigma 0. -/
def ssig0 (x : Nat) : Nat := (rotr32 7 x) ^^^ (rotr32 18 x) ^^^ (x >>> 3)

/-- SHA-256 small sigma 1. -/
def ssig1 (x : Nat) : Nat := (rotr32 17 x) ^^^ (rotr32 19 x) ^^^ (x >>> 10)

/-- SHA-256 big sigma 0. -/
def bsig0 (x : Nat) : Nat := (rotr32 2 x) ^^^ (rotr32 13 x) ^^^ (rotr32 22 x)

/-- SHA-256 big sigma 1. -/
def bsig1 (x : Nat) : Nat := (rotr32 6 x) ^^^ (rotr32 11 x) ^^^ (rotr32 25 x)

/-- SHA-256 choice function. -/
def chFn (e f g : Nat) : Nat := (e &&& f) ^^^ ((0xFFFFFFFF ^^^ e) &&& g)

/-- SHA-256 majority function. -/
def majFn (a b c : Nat) : Nat := (a &&& b) ^^^ (a &&& c) ^^^ (b &&& c)

/-- The 64 SHA-256 round constants of FIPS 180-4, written in decimal. -/
def shaK : List Nat :=
  [1116352408, 1899447441, 3049323471, 3921009573, 961987163,
   1508970993, 2453635748, 2870763221, 3624381080, 310598401,
   607225278, 1426881987, 1925078388, 2162078206, 2614888103,
   3248222580, 3835390401, 4022224774, 264347078, 604807628,
   770255983, 1249150122, 1555081692, 1996064986, 2554220882,
   2821834349, 2952996808, 3210313671, 3336571891, 3584528711,
   113926993, 338241895, 666307205, 773529912, 1294757372,
   1396182291, 1695183700, 1986661051, 2177026350, 2456956037,
   2730485921, 2820302411, 3259730800, 3345764771, 3516065817,
   3600352804, 4094571909, 275423344, 430227734, 506948616,
   659060556, 883997877, 958139571, 1322822218, 1537002063,
   1747873779, 1955562222, 2024104815, 2227730452, 2361852424,
   2428436474, 2756734187, 3204031479, 3329325298]

/-- The eight working variables of the SHA-256 compression function,
also used for the running hash state. -/
structure ShaState where
  a : Nat
  b : Nat
  c : Nat
  d : Nat
  e : Nat
  f : Nat
  g : Nat
  h : Nat
  deriving DecidableEq

/-- The SHA-256 initial hash value of FIPS 180-4, written in decimal. -/
def shaH0 : ShaState :=
  ⟨1779033703, 3144134277, 1013904242, 2773480762,
   1359893119, 2600822924, 528734635, 1541459225⟩

/-- Group a byte list into 32-bit big-endian words, four bytes per word. -/
def bytesToWords : List Nat → List Nat
  | b0 :: b1 :: b2 :: b3 :: rest =>
      (b0 * 0x1000000 + b1 * 0x10000 + b2 * 0x100 + b3) :: bytesToWords rest
  | _ => []

/-- One message-schedule extension step: append the next word computed from
the words 2, 7, 15 and 16 places back. -/
def scheduleStep (ws : List Nat) : List Nat :=
  let n := ws.length
  let w16 := ws.getD (n - 16) 0
  let w15 := ws.getD (n - 15) 0
  let w7 := ws.getD (n - 7) 0
  let w2 := ws.getD (n - 2) 0
  ws ++ [(w16 + ssig0 w15 + w7 + ssig1 w2) % U32MOD]

/-- Iterate the message-schedule extension `k` times. -/
def scheduleN : Nat → List Nat → List Nat
  | 0, ws => ws
  | k + 1, ws => scheduleN k (scheduleStep ws)

/-- One SHA-256 round with round constant `k` and schedule word `w`. -/
def shaRound (s : ShaState) (kw : Nat × Nat) : ShaState :=
  let t1 := (s.h + bsig1 s.e + chFn s.e s.f s.g + kw.1 + kw.2) % U32MOD
  let t2 := (bsig0 s.a + majFn s.a s.b s.c) % U32MOD
  ⟨(t1 + t2) % U32MOD, s.a, s.b, s.c, (s.d + t1) % U32MOD, s.e, s.f, s.g⟩

/-- Process one 64-byte chunk, updating the running hash state. -/
def processChunk (hs : ShaState) (chunk : List Nat) : ShaState :=
  let ws := scheduleN 48 (bytesToWords chunk)
  let r := (shaK.zip ws).foldl shaRound hs
  ⟨(hs.a + r.a) % U32MOD, (hs.b + r.b) % U32MOD, (hs.c + r.c) % U32MOD,
   (hs.d + r.d) % U32MOD, (hs.e + r.e) % U32MOD, (hs.f + r.f) % U32MOD,
   (hs.g + r.g) % U32MOD, (hs.h + r.h) % U32MOD⟩

/-- The four big-endian bytes of a 32-bit word. -/
def be4 (w : Nat) : List Nat :=
  [w >>> 24 % 256, w >>> 16 % 256, w >>> 8 % 256, w % 256]

/-- The eight big-endian bytes of a 64-bit value. -/
def be8 (w : Nat) : List Nat :=
  [w >>> 56 % 256, w >>> 48 % 256, w >>> 40 % 256, w >>> 32 % 256,
   w >>> 24 % 256, w >>> 16 % 256, w >>> 8 % 256, w % 256]

/-- The final digest bytes of a hash state: big-endian bytes of the eight words. -/
def outputBytes (s : ShaState) : Hash :=
  be4 s.a ++ be4 s.b ++ be4 s.c ++ be4 s.d ++ be4 s.e ++ be4 s.f ++ be4 s.g ++ be4 s.h

/-- SHA-256 padding: append the 0x80 marker, zeros up to 56 mod 64 bytes,
then the 8-byte big-endian bit length of the message. -/
def padMessage (msg : List Nat) : List Nat :=
  let len := msg.length
  let z := (119 - len % 64) % 64
  msg ++ [0x80] ++ List.replicate z 0 ++ be8 ((8 * len) % U64MOD)

/-- Split a byte list into 64-byte chunks.  The first argument is fuel; the
message length is always sufficient fuel since every step consumes 64 bytes. -/
def chunks64 : Nat → List Nat → List (List Nat)
  | 0, _ => []
  | fuel + 1, l => if l.isEmpty then [] else l.take 64 :: chunks64 fuel (l.drop 64)

/-- SHA-256 of a byte string, as used by the source through the `sha2` crate
(`Sha256::new` / `update` / `finalize`). -/
def sha256 (msg : List Nat) : Hash :=
  let padded := padMessage msg
  outputBytes ((chunks64 padded.length padded).foldl processChunk shaH0)

/-! ## Transactions and their canonical serialization

The source struct `Transaction` has fields `from`, `to` (strings, modelled as
their UTF-8 byte lists), `amount` and `timestamp` (`u64`).  Its canonical
serialization is `serde_json::to_vec`, which for this struct emits the fields
in declaration order with no whitespace.  The field names `from` and `to` are
keywords or near-keywords in Lean and carry a trailing underscore here. -/

structure Transaction where
  from_ : List Nat
  to_ : List Nat
  amount : Nat
  timestamp : Nat
  deriving DecidableEq

/-- ASCII byte of a hexadecimal digit, lowercase, as emitted by serde_json
for control-character escapes. -/
def hexDigitByte (d : Nat) : Nat := if d < 10 then 48 + d else 87 + d

/-- serde_json escaping of one byte of a JSON string: quote and backslash get
a backslash escape, the control characters 0x08 0x09 0x0A 0x0C 0x0D get their
short escapes, other control bytes below 0x20 get a 6-byte unicode escape,
and every other byte is emitted as is. -/
def jsonEscapeByte (b : Nat) : List Nat :=
  if b = 0x22 then [0x5C, 0x22]
  else if b = 0x5C then [0x5C, 0x5C]
  else if b = 0x08 then [0x5C, 0x62]
  else if b = 0x09 then [0x5C, 0x74]
  else if b = 0x0A then [0x5C, 0x6E]
  else if b = 0x0C then [0x5C, 0x66]
  else if b = 0x0D then [0x5C, 0x72]
  else if b < 0x20 then [0x5C, 0x75, 0x30, 0x30, hexDigitByte (b / 16), hexDigitByte (b % 16)]
  else [b]

/-- A JSON string literal: quote, escaped content bytes, quote. -/
def jsonString (s : List Nat) : List Nat :=
  0x22 :: (s.flatMap jsonEscapeByte) ++ [0x22]

/-- Decimal digit bytes of a positive number, most significant first.
The first argument is fuel; `n` itself is always sufficient. -/
def decLoop : Nat → Nat → List Nat
  | 0, _ => []
  | fuel + 1, n => if n = 0 then [] else decLoop fuel (n / 10) ++ [48 + n % 10]

/-- The ASCII decimal representation of a `u64` value, as serde_json emits
unsigned integers. -/
def decimalBytes (n : Nat) : List Nat :=
  if n = 0 then [48] else decLoop n n

/-- The canonical serialization of a transaction: the exact byte string
produced by `serde_json::to_vec`, for example
0x7B "from":A,"to":B,"amount":N,"timestamp":M 0x7D with no whitespace. -/
def tx_canonical_bytes (t : Transaction) : List Nat :=
  [0x7B, 0x22, 0x66, 0x72, 0x6F, 0x6D, 0x22, 0x3A] ++ jsonString t.from_ ++
  [0x2C, 0x22, 0x74, 0x6F, 0x22, 0x3A] ++ jsonString t.to_ ++
  [0x2C, 0x22, 0x61, 0x6D, 0x6F, 0x75, 0x6E, 0x74, 0x22, 0x3A] ++ decimalBytes t.amount ++
  [0x2C, 0x22, 0x74, 0x69, 0x6D, 0x65, 0x73, 0x74, 0x61, 0x6D, 0x70, 0x22, 0x3A] ++
  decimalBytes t.timestamp ++ [0x7D]

/-- The leaf hash of a transaction inside `merkle_root`: SHA-256 of the
canonical serialization. -/
def txLeafHash (t : Transaction) : Hash := sha256 (tx_canonical_bytes t)

/-! ## Merkle root (`merkle_root` in ledger-core/src/lib.rs) -/

/-- One level of the Merkle construction: the `chunks(2)` loop body.  Adjacent
pairs are hashed together; a trailing singleton chunk is paired with itself. -/
def merkleStep : List Hash → List Hash
  | [] => []
  | [a] => [sha256 (a ++ a)]
  | a :: b :: rest => sha256 (a ++ b) :: merkleStep rest

/-- The `while level.len() > 1` loop of `merkle_root`, with explicit fuel.
The level length strictly decreases at every iteration, so fuel equal to the
initial level length always suffices. -/
def merkleUpFuel : Nat → List Hash → Hash
  | 0, l => l.headD zeros32
  | fuel + 1, l => if 1 < l.length then merkleUpFuel fuel (merkleStep l) else l.headD zeros32

/-- `merkle_root(txs)`: the all-zero sentinel for the empty list, otherwise
the bottom-up pairwise reduction of the leaf hashes. -/
def merkle_root (txs : List Transaction) : Hash :=
  if txs.isEmpty then zeros32
  else merkleUpFuel txs.length (txs.map txLeafHash)

/-! ## Block header and block (`BlockHeader`, `Block`) -/

/-- The eight little-endian bytes of a `u64` value (`u64::to_le_bytes`). -/
def le8 (n : Nat) : List Nat :=
  [n % 256, n >>> 8 % 256, n >>> 16 % 256, n >>> 24 % 256,
   n >>> 32 % 256, n >>> 40 % 256, n >>> 48 % 256, n >>> 56 % 256]

/-- The six-field block header.  All `u64` fields are modelled as `Nat`. -/
structure BlockHeader where
  index : Nat
  previous_hash : Hash
  data_hash : Hash
  merkle_root : Hash
  timestamp : Nat
  nonce : Nat
  deriving DecidableEq

/-- `BlockHeader::hash_bytes`: the canonical 120-byte encoding, in field
order, with the three `u64` fields in little-endian byte order. -/
def BlockHeader.hash_bytes (hdr : BlockHeader) : List Nat :=
  le8 hdr.index ++ hdr.previous_hash ++ hdr.data_hash ++ hdr.merkle_root ++
  le8 hdr.timestamp ++ le8 hdr.nonce

/-- `block_header_hash`: SHA-256 of the canonical header encoding. -/
def block_header_hash (hdr : BlockHeader) : Hash := sha256 hdr.hash_bytes

/-- `block_data_hash`: hash of the UTF-8 bytes of the payload if present,
else hash of the empty byte string. -/
def block_data_hash (data : Option (List Nat)) : Hash := sha256 (data.getD [])

/-- A block: header, optional free-text payload (modelled as UTF-8 bytes),
and the ordered transaction list. -/
structure Block where
  header : BlockHeader
  data : Option (List Nat)
  txs : List Transaction
  deriving DecidableEq

/-- `Block::hash`: the hash of the header only. -/
def Block.hash (b : Block) : Hash := block_header_hash b.header

/-! ## Proof of work (`pow` module and `mine.rs`) -/

/-- `u8::leading_zeros` for a byte value: the number of leading zero bits in
its 8-bit representation. -/
def byteLeadingZeros (b : Nat) : Nat :=
  if 128 ≤ b then 0 else if 64 ≤ b then 1 else if 32 ≤ b then 2
  else if 16 ≤ b then 3 else if 8 ≤ b then 4 else if 4 ≤ b then 5
  else if 2 ≤ b then 6 else if 1 ≤ b then 7 else 8

/-- `count_leading_zero_bits`: scan bytes from the front, 8 bits per all-zero
byte, then the leading-zero count of the first non-zero byte. -/
def count_leading_zero_bits : Hash → Nat
  | [] => 0
  | b :: rest => if b = 0 then 8 + count_leading_zero_bits rest else byteLeadingZeros b

/-- `POW_TARGET_DIFFICULTY` from ledger-core/src/constants.rs. -/
def POW_TARGET_DIFFICULTY : Nat := 20

/-- `pow::mine_genesis_block`: increment the nonce (with `u64` wraparound)
until the header hash has at least `target_zeros` leading zero bits.  The
source loops unboundedly; the extra fuel argument makes the function total,
with `none` standing for an execution that has not returned within `fuel`
attempts. -/
def mine_genesis_block : Nat → Block → Nat → Option Block
  | 0, _, _ => none
  | fuel + 1, b, target_zeros =>
      if target_zeros ≤ count_leading_zero_bits (block_header_hash b.header) then some b
      else
        mine_genesis_block fuel
          { b with header := { b.header with nonce := (b.header.nonce + 1) % U64MOD } }
          target_zeros

/-- The number of nonces the parallel search ranges over: the half-open Rust
range `0u64..u64::MAX` has `2^64 - 1` elements. -/
def NONCE_RANGE_SIZE : Nat := 18446744073709551615

/-- The proof-of-work predicate tested per candidate nonce in
`mine_block_parallel`: the hash of the header template with this nonce has at
least `target` leading zero bits. -/
def pow_pred (base : BlockHeader) (target nonce : Nat) : Bool :=
  target ≤ count_leading_zero_bits (block_header_hash { base with nonce := nonce })

/-- The first nonce, scanning up from `start`, that satisfies `p`; `none` if
none of the `fuel` candidates does.  This determinizes Rayon `find_any`, which
returns an unspecified satisfying nonce; every property proved below depends
only on the returned nonce satisfying `p`, never on which one is returned. -/
def findFirstSat (p : Nat → Bool) : Nat → Nat → Option Nat
  | 0, _ => none
  | fuel + 1, start => if p start then some start else findFirstSat p fuel (start + 1)

/-- The result of a mining call: a mined block and its hash, or a process
panic (the source reaches panics through `expect`, which aborts rather than
returning a value). -/
inductive MineResult where
  | ok (b : Block) (h : Hash)
  | crash (msg : String)
  deriving DecidableEq

/-- `mine_block_parallel` from mine.rs: build the header template (all fields
but the nonce fixed), search the nonce space for a satisfying nonce, and
either return the final block with its hash or panic on exhaustion.  The
wall-clock timestamp read by the source is passed in as `ts`. -/
def mine_block_parallel (ts index : Nat) (prev_hash : Hash) (txs : List Transaction)
    (data : Option (List Nat)) (target : Nat) : MineResult :=
  let merkle := merkle_root txs
  let data_hash := block_data_hash data
  let base : BlockHeader :=
    { index := index, previous_hash := prev_hash, data_hash := data_hash,
      merkle_root := merkle, timestamp := ts, nonce := 0 }
  match findFirstSat (pow_pred base target) NONCE_RANGE_SIZE 0 with
  | none => .crash "nonce space exhausted (practically impossible)"
  | some found =>
      let final_header := { base with nonce := found }
      .ok { header := final_header, data := data, txs := txs } (block_header_hash final_header)

/-! ## Durable store (`SledStore` in ledger-storage/src/sled_store.rs)

The store state is the durable content an open sled database holds for this
program: the blocks tree (an index-to-block map, modelled as an association
list) and the two scalar tip records.  Backend I/O failures are outside the
model; every modelled operation is the branch in which sled succeeds. -/

structure StoreState where
  blocks : List (Nat × Block)
  tip_height_rec : Option Nat
  tip_hash_rec : Option Hash
  deriving DecidableEq

/-- A freshly opened store: no blocks, no tip records. -/
def emptyStore : StoreState := ⟨[], none, none⟩

/-- `get_block`: the stored block at `index`, or absence. -/
def get_block (index : Nat) (s : StoreState) : Option Block :=
  s.blocks.lookup index

/-- `put_block`: a no-op when the index is already occupied; otherwise insert
the block at `header.index` and set both tip records to this block. -/
def put_block (b : Block) (s : StoreState) : StoreState :=
  if (get_block b.header.index s).isSome then s
  else
    { blocks := (b.header.index, b) :: s.blocks,
      tip_height_rec := some b.header.index,
      tip_hash_rec := some b.hash }

/-- `tip_height`: the recorded tip height, 0 when the record is absent. -/
def tip_height (s : StoreState) : Nat := s.tip_height_rec.getD 0

/-- `tip_hash`: the recorded tip hash, or absence. -/
def tip_hash (s : StoreState) : Option Hash := s.tip_hash_rec

/-! ## Chain facade (`chain::Chain` in ledger-core/src/lib.rs) -/

/-- `chain::genesis_block`: a zero-transaction block at index 0 with zeroed
previous hash and merkle root, the fixed marker payload, and nonce 0.  The
wall-clock timestamp read by `BlockHeader::new` is passed in as `ts`.  The
payload bytes spell the marker string of the source. -/
def genesis_block (ts : Nat) : Block :=
  let data : Option (List Nat) :=
    some [71, 101, 110, 101, 115, 105, 115, 32, 66, 108, 111, 99, 107]
  { header :=
      { index := 0, previous_hash := zeros32, data_hash := block_data_hash data,
        merkle_root := zeros32, timestamp := ts, nonce := 0 },
    data := data, txs := [] }

/-- `Chain::ensure_genesis`: when the tip height is 0 and no block 0 is
stored, mine the genesis block sequentially at the default difficulty and
persist it.  `none` stands for the execution in which the sequential mining
loop has not returned within `fuel` attempts. -/
def ensure_genesis (fuel ts : Nat) (s : StoreState) : Option StoreState :=
  if tip_height s == 0 && (get_block 0 s).isNone then
    match mine_genesis_block fuel (genesis_block ts) POW_TARGET_DIFFICULTY with
    | none => none
    | some gb => some (put_block gb s)
  else some s

/-- The result of `Chain::mine_with_txs_parallel`: the updated store together
with the mined block and its hash, or a process panic. -/
inductive ChainResult where
  | ok (s : StoreState) (b : Block) (h : Hash)
  | crash (msg : String)
  deriving DecidableEq

/-- `Chain::mine_with_txs_parallel`: read the tip, mine the next block with
the parallel search, persist it, and return it with its hash.  When the tip
hash record is absent the source panics through
`prev_hash.expect("tip hash should be available")`. -/
def mine_with_txs_parallel (s : StoreState) (txs : List Transaction)
    (data : Option (List Nat)) (target ts : Nat) : ChainResult :=
  let index := tip_height s + 1
  match tip_hash s with
  | none => .crash "tip hash should be available"
  | some prev =>
      match mine_block_parallel ts index prev txs data target with
      | .crash msg => .crash msg
      | .ok b h => .ok (put_block b s) b h


/-! ## Concrete blocks and store states used in witness theorems -/

/-- A stored block for the C4 witness. -/
def c4Stored : Block := ⟨⟨2, zeros32, zeros32, zeros32, 4, 0⟩, none, []⟩

/-- A different block at the same index 2, attempted second. -/
def c4Second : Block := ⟨⟨2, zeros32, zeros32, zeros32, 9, 77⟩, none, []⟩

/-- A store state already holding a block at index 2. -/
def c4Store : StoreState := ⟨[(2, c4Stored)], some 2, some zeros32⟩

/-- A block with index 5 for the C3 counterexample. -/
def c3Block5 : Block := ⟨⟨5, zeros32, zeros32, zeros32, 0, 0⟩, none, []⟩

/-- A block with index 3 for the C3 counterexample. -/
def c3Block3 : Block := ⟨⟨3, zeros32, zeros32, zeros32, 0, 0⟩, none, []⟩

/-- A block with index 1 for the C3 witness. -/
def c3Block1 : Block := ⟨⟨1, zeros32, zeros32, zeros32, 0, 0⟩, none, []⟩

/-- A pre-built genesis candidate for the C6 witness. -/
def c6Block : Block := ⟨⟨0, zeros32, zeros32, zeros32, 3, 0⟩, none, []⟩

/-- A bootstrapped-looking store for the C5 witness: one block at index 0 and
both tip records set. -/
def c5Store : StoreState :=
  ⟨[(0, ⟨⟨0, zeros32, zeros32, zeros32, 3, 0⟩, none, []⟩)], some 0, some zeros32⟩

/-- The header the parallel miner produces on `c5Store` at target 0 with
timestamp 7: nonce 0 is accepted immediately. -/
def c5MinedHeader : BlockHeader := ⟨1, zeros32, block_data_hash none, merkle_root [], 7, 0⟩

/-- The block the parallel miner produces on `c5Store` at target 0. -/
def c5Mined : Block := ⟨c5MinedHeader, none, []⟩

/-- A concrete transaction with empty parties for the C10 singleton check. -/
def c10Tx : Transaction := ⟨[], [], 0, 0⟩

/-! ## Helper lemmas -/

/-- A successful association-list lookup returns a stored pair. -/
theorem lookup_mem : ∀ (l : List (Nat × Block)) (i : Nat) (v : Block),
    l.lookup i = some v → (i, v) ∈ l := by
  intro l
  induction l with
  | nil => intro i v h; simp [List.lookup] at h
  | cons p rest ih =>
      intro i v h
      rw [List.lookup] at h
      split at h
      next heq =>
        cases h
        have hi : i = p.1 := by simpa using heq
        rw [hi, Prod.mk.eta]
        exact List.mem_cons_self _ _
      next heq =>
        exact List.mem_cons_of_mem _ (ih i v h)

/-- Each byte contributes at most 8 leading zero bits. -/
theorem byteLeadingZeros_le (b : Nat) : byteLeadingZeros b ≤ 8 := by
  unfold byteLeadingZeros
  repeat' split
  all_goals omega

/-- The leading-zero count of a byte string is at most 8 bits per byte. -/
theorem count_leading_zero_bits_le : ∀ h : Hash, count_leading_zero_bits h ≤ 8 * h.length := by
  intro h
  induction h with
  | nil => simp [count_leading_zero_bits]
  | cons b rest ih =>
      rw [count_leading_zero_bits]
      split
      · simp only [List.length_cons]
        omega
      · have := byteLeadingZeros_le b
        simp only [List.length_cons]
        omega

/-- SHA-256 digests are 32 bytes long. -/
theorem sha256_length (msg : List Nat) : (sha256 msg).length = 32 := by
  simp [sha256, outputBytes, be4]

/-- The leading-zero count of a SHA-256 digest is at most 256. -/
theorem count_sha256_le (msg : List Nat) : count_leading_zero_bits (sha256 msg) ≤ 256 := by
  have := count_leading_zero_bits_le (sha256 msg)
  rw [sha256_length] at this
  omega

/-- When no candidate satisfies the predicate the search returns nothing. -/
theorem findFirstSat_eq_none (p : Nat → Bool) (hp : ∀ n, p n = false) :
    ∀ fuel start, findFirstSat p fuel start = none := by
  intro fuel
  induction fuel with
  | zero => intro start; rfl
  | succ k ih =>
      intro start
      rw [findFirstSat, hp start]
      exact ih (start + 1)

/-- A nonce returned by the search satisfies the predicate. -/
theorem findFirstSat_sat (p : Nat → Bool) :
    ∀ fuel start n, findFirstSat p fuel start = some n → p n = true := by
  intro fuel
  induction fuel with
  | zero => intro start n h; simp [findFirstSat] at h
  | succ k ih =>
      intro start n h
      rw [findFirstSat] at h
      by_cases hs : p start
      · rw [if_pos hs] at h
        cases h
        exact hs
      · rw [if_neg hs] at h
        exact ih (start + 1) n h

/-! ## Claim C9: header byte layout and header hash -/

/-- C9: for every block header, `hash_bytes` is the concatenation of the
index in 8 little-endian bytes, the three 32-byte hash fields in order, and
the timestamp and nonce in 8 little-endian bytes each, 120 bytes in all, and
`block_header_hash` is the SHA-256 digest of exactly that byte string. -/
theorem C9_header_layout (hdr : BlockHeader) :
    hdr.hash_bytes =
      le8 hdr.index ++ hdr.previous_hash ++ hdr.data_hash ++ hdr.merkle_root ++
        le8 hdr.timestamp ++ le8 hdr.nonce ∧
    (hdr.previous_hash.length = 32 → hdr.data_hash.length = 32 →
      hdr.merkle_root.length = 32 → hdr.hash_bytes.length = 120) ∧
    block_header_hash hdr = sha256 hdr.hash_bytes := by
  refine ⟨rfl, ?_, rfl⟩
  intro h1 h2 h3
  simp [BlockHeader.hash_bytes, le8, h1, h2, h3]

/-- C9 witness: the layout facts evaluated at a concrete header. -/
theorem C9_witness :
    (BlockHeader.hash_bytes ⟨7, zeros32, zeros32, zeros32, 11, 13⟩).length = 120 :=
  (C9_header_layout ⟨7, zeros32, zeros32, zeros32, 11, 13⟩).2.1 rfl rfl rfl

/-! ## Claim C4: put_block is an idempotent no-op at an occupied index -/

/-- C4: a `put_block` at an already occupied index succeeds as a no-op: the
whole store state is unchanged, so the stored block at that index, the tip
height and the tip hash are all unchanged (the existing entry wins). -/
theorem C4_put_occupied_noop (s : StoreState) (b bOld : Block)
    (hOcc : get_block b.header.index s = some bOld) :
    put_block b s = s ∧
    get_block b.header.index (put_block b s) = some bOld ∧
    tip_height (put_block b s) = tip_height s ∧
    tip_hash (put_block b s) = tip_hash s := by
  have hSome : (get_block b.header.index s).isSome := by rw [hOcc]; rfl
  have hput : put_block b s = s := by simp [put_block, hSome]
  exact ⟨hput, by rw [hput, hOcc], by rw [hput], by rw [hput]⟩




/-- C4 witness: the no-op evaluated at a concrete occupied store. -/
theorem C4_witness :
    put_block c4Second c4Store = c4Store ∧
    get_block 2 (put_block c4Second c4Store) = some c4Stored :=
  ⟨(C4_put_occupied_noop c4Store c4Second c4Stored rfl).1,
   (C4_put_occupied_noop c4Store c4Second c4Stored rfl).2.1⟩

/-! ## Claim C3: tip tracking of the durable backend -/



/-- C3 counterexample: two successful `put_block` calls, indices 5 then 3,
leave the tip height at 3 even though a block with the larger index 5 is
still stored: the tip height decreased from 5 to 3 and no longer equals the
highest stored index. -/
theorem C3_counterexample :
    tip_height (put_block c3Block5 emptyStore) = 5 ∧
    tip_height (put_block c3Block3 (put_block c3Block5 emptyStore)) = 3 ∧
    get_block 5 (put_block c3Block3 (put_block c3Block5 emptyStore)) = some c3Block5 :=
  ⟨rfl, rfl, rfl⟩

/-- C3 amended: `put_block` sets the tip height to the index of the block it
actually inserts; therefore, as long as every inserted index exceeds the
current tip height (in-order appending, which is how the chain facade drives
the store) and all stored indices are bounded by the tip, the tip height
never decreases and afterwards again equals the highest stored index. -/
theorem C3_tip_monotone_in_order (s : StoreState) (b : Block)
    (hinv : ∀ k bb, (k, bb) ∈ s.blocks → k ≤ tip_height s)
    (hlt : tip_height s < b.header.index) :
    tip_height (put_block b s) = b.header.index ∧
    tip_height s ≤ tip_height (put_block b s) ∧
    (∀ k bb, (k, bb) ∈ (put_block b s).blocks → k ≤ tip_height (put_block b s)) := by
  have hnone : ¬(get_block b.header.index s).isSome = true := by
    cases hmem : get_block b.header.index s with
    | none => simp
    | some bb =>
        have := hinv _ bb (lookup_mem s.blocks _ bb hmem)
        omega
  have hstep : put_block b s =
      ⟨(b.header.index, b) :: s.blocks, some b.header.index, some b.hash⟩ := by
    simp [put_block, hnone]
  rw [hstep]
  refine ⟨rfl, by simp [tip_height] at hlt ⊢; omega, ?_⟩
  intro k bb hk
  rcases List.mem_cons.mp hk with hEq | hTail
  · cases hEq
    exact Nat.le_refl _
  · have := hinv k bb hTail
    simp [tip_height]
    omega


/-- C3 witness: the amended statement evaluated on an empty store. -/
theorem C3_witness : tip_height (put_block c3Block1 emptyStore) = 1 :=
  (C3_tip_monotone_in_order emptyStore c3Block1 (by simp [emptyStore]) (by decide)).1

/-! ## Claim C1: mining with no existing tip -/

/-- C1: on a store whose tip hash record is absent (genesis never
bootstrapped), `mine_with_txs_parallel` does not return a failed result: it
panics, through `prev_hash.expect("tip hash should be available")`, modelled
by the `crash` outcome.  This run evaluates the facade on a fresh store. -/
theorem C1_mine_without_tip_panics :
    mine_with_txs_parallel emptyStore [] none 16 0 =
      ChainResult.crash "tip hash should be available" := rfl

/-- Inversion for a successful parallel mining call: the returned block keeps
every template field, its nonce satisfies the proof-of-work predicate, and the
returned hash is the hash of the returned header. -/
theorem mine_block_parallel_ok (ts index : Nat) (prev : Hash) (txs : List Transaction)
    (data : Option (List Nat)) (target : Nat) (b : Block) (h : Hash)
    (hok : mine_block_parallel ts index prev txs data target = .ok b h) :
    b.header.index = index ∧ b.header.previous_hash = prev ∧
    b.header.timestamp = ts ∧ b.data = data ∧ b.txs = txs ∧
    target ≤ count_leading_zero_bits (block_header_hash b.header) ∧
    h = block_header_hash b.header := by
  simp only [mine_block_parallel] at hok
  split at hok
  · exact absurd hok (by simp)
  next found heq =>
    have hsat := findFirstSat_sat _ _ _ _ heq
    simp only [pow_pred, decide_eq_true_eq] at hsat
    cases hok
    exact ⟨rfl, rfl, rfl, rfl, rfl, hsat, rfl⟩

/-! ## Claim C2: nonce-space exhaustion -/

/-- When no nonce satisfies the proof-of-work predicate the whole searched
range is exhausted and `mine_block_parallel` reaches the `expect`, modelled
by the `crash` outcome. -/
theorem mine_block_parallel_exhausted (ts index : Nat) (prev : Hash)
    (txs : List Transaction) (data : Option (List Nat)) (target : Nat)
    (hex : ∀ n,
      pow_pred ⟨index, prev, block_data_hash data, merkle_root txs, ts, 0⟩ target n = false) :
    mine_block_parallel ts index prev txs data target =
      MineResult.crash "nonce space exhausted (practically impossible)" := by
  simp only [mine_block_parallel]
  rw [findFirstSat_eq_none _ hex]

/-- A target beyond 256 can never be met, whatever the header fields. -/
theorem pow_pred_false_of_target_gt (base : BlockHeader) (target : Nat)
    (htarget : 256 < target) : ∀ n, pow_pred base target n = false := by
  intro n
  have hle := count_sha256_le (BlockHeader.hash_bytes { base with nonce := n })
  simp only [pow_pred, block_header_hash, decide_eq_false_iff_not, not_le]
  omega

/-- C2 counterexample: at target 257 no nonce can satisfy the predicate (a
SHA-256 digest has at most 256 leading zero bits), so the parallel search
exhausts its whole range; the call then panics through
`expect("nonce space exhausted (practically impossible)")`, modelled by the
`crash` outcome, instead of returning an error result to the caller. -/
theorem C2_counterexample :
    mine_block_parallel 0 1 zeros32 [] none 257 =
      MineResult.crash "nonce space exhausted (practically impossible)" :=
  mine_block_parallel_exhausted 0 1 zeros32 [] none 257
    (pow_pred_false_of_target_gt _ 257 (by omega))

/-- C2 amended: when no nonce in the searched range satisfies the
proof-of-work predicate, `mine_block_parallel` panics with the explicit
message of the source rather than returning; its return type offers no error
channel at all, so exhaustion is an abrupt termination, not an error result.
-/
theorem C2_exhaustion_panics (ts index : Nat) (prev : Hash) (txs : List Transaction)
    (data : Option (List Nat)) (target : Nat)
    (hex : ∀ n,
      pow_pred ⟨index, prev, block_data_hash data, merkle_root txs, ts, 0⟩ target n = false) :
    mine_block_parallel ts index prev txs data target =
      MineResult.crash "nonce space exhausted (practically impossible)" :=
  mine_block_parallel_exhausted ts index prev txs data target hex

/-- C2 witness: the amended statement applied at a concrete input whose
target, 300, exceeds every possible leading-zero count. -/
theorem C2_witness :
    mine_block_parallel 5 2 zeros32 [] none 300 =
      MineResult.crash "nonce space exhausted (practically impossible)" :=
  C2_exhaustion_panics 5 2 zeros32 [] none 300
    (pow_pred_false_of_target_gt _ 300 (by omega))

/-! ## Claim C6: every mined block meets its difficulty -/

/-- C6: any block returned by the sequential genesis miner or by the parallel
miner at difficulty `d` has a header hash with at least `d` leading zero
bits. -/
theorem C6_mined_blocks_meet_difficulty :
    (∀ fuel blk target b, mine_genesis_block fuel blk target = some b →
        target ≤ count_leading_zero_bits (block_header_hash b.header)) ∧
    (∀ ts index prev txs data target b h,
        mine_block_parallel ts index prev txs data target = .ok b h →
        target ≤ count_leading_zero_bits (block_header_hash b.header)) := by
  constructor
  · intro fuel
    induction fuel with
    | zero => intro blk target b h; simp [mine_genesis_block] at h
    | succ k ih =>
        intro blk target b h
        rw [mine_genesis_block] at h
        split at h
        next hle => cases h; exact hle
        next => exact ih _ _ _ h
  · intro ts index prev txs data target b h hok
    exact (mine_block_parallel_ok ts index prev txs data target b h hok).2.2.2.2.2.1


set_option maxRecDepth 200000 in
/-- C6 witness: the genesis bound applied at difficulty 0, where the first
nonce is immediately accepted. -/
theorem C6_witness : 0 ≤ count_leading_zero_bits (block_header_hash c6Block.header) :=
  C6_mined_blocks_meet_difficulty.1 1 c6Block 0 c6Block rfl

/-! ## Claim C5: shape of a block mined on top of an existing tip -/

/-- C5: when the tip hash is present and `mine_with_txs_parallel` returns a
block, that block carries index `tip_height + 1`, the observed tip hash as
its previous hash, a header hash with at least `target` leading zero bits,
and the returned hash is the hash of the returned header. -/
theorem C5_mine_with_txs_shape (s : StoreState) (txs : List Transaction)
    (data : Option (List Nat)) (target ts : Nat) (prev : Hash)
    (s' : StoreState) (b : Block) (h : Hash)
    (htip : tip_hash s = some prev)
    (hok : mine_with_txs_parallel s txs data target ts = .ok s' b h) :
    b.header.index = tip_height s + 1 ∧
    b.header.previous_hash = prev ∧
    target ≤ count_leading_zero_bits (block_header_hash b.header) ∧
    h = block_header_hash b.header := by
  simp only [mine_with_txs_parallel, htip] at hok
  cases hm : mine_block_parallel ts (tip_height s + 1) prev txs data target with
  | crash msg => rw [hm] at hok; exact absurd hok (by simp)
  | ok b0 h0 =>
      rw [hm] at hok
      obtain ⟨hidx, hprev, _, _, _, hpow, hh⟩ :=
        mine_block_parallel_ok ts (tip_height s + 1) prev txs data target b0 h0 hm
      cases hok
      exact ⟨hidx, hprev, hpow, hh⟩




set_option maxRecDepth 200000 in
/-- C5 witness: the shape facts evaluated on a concrete bootstrapped store at
target 0. -/
theorem C5_witness :
    c5Mined.header.index = tip_height c5Store + 1 ∧
    c5Mined.header.previous_hash = zeros32 :=
  ⟨(C5_mine_with_txs_shape c5Store [] none 0 7 zeros32 (put_block c5Mined c5Store) c5Mined
      (block_header_hash c5MinedHeader) rfl rfl).1,
   (C5_mine_with_txs_shape c5Store [] none 0 7 zeros32 (put_block c5Mined c5Store) c5Mined
      (block_header_hash c5MinedHeader) rfl rfl).2.1⟩

/-! ## Merkle structure lemmas -/

/-- One Merkle level halves the length, rounding up. -/
theorem merkleStep_length : ∀ l : List Hash, (merkleStep l).length = (l.length + 1) / 2
  | [] => rfl
  | [_] => by simp [merkleStep]
  | _ :: _ :: r => by
      simp only [merkleStep, List.length_cons, merkleStep_length r]
      omega

/-- A level of even length followed by one element: the last element is
paired with itself. -/
theorem merkleStep_odd : ∀ (ys : List Hash) (x : Hash), ys.length % 2 = 0 →
    merkleStep (ys ++ [x]) = merkleStep ys ++ [sha256 (x ++ x)]
  | [], _, _ => rfl
  | [_], _, h => by simp at h
  | a :: b :: r, x, h => by
      have hr : r.length % 2 = 0 := by
        simp only [List.length_cons] at h
        omega
      calc merkleStep ((a :: b :: r) ++ [x])
          = sha256 (a ++ b) :: merkleStep (r ++ [x]) := rfl
        _ = sha256 (a ++ b) :: (merkleStep r ++ [sha256 (x ++ x)]) := by
              rw [merkleStep_odd r x hr]
        _ = merkleStep (a :: b :: r) ++ [sha256 (x ++ x)] := rfl

/-- A level of even length followed by two elements: the two extra elements
are paired with each other. -/
theorem merkleStep_even2 : ∀ (ys : List Hash) (x y : Hash), ys.length % 2 = 0 →
    merkleStep (ys ++ [x, y]) = merkleStep ys ++ [sha256 (x ++ y)]
  | [], _, _, _ => rfl
  | [_], _, _, h => by simp at h
  | a :: b :: r, x, y, h => by
      have hr : r.length % 2 = 0 := by
        simp only [List.length_cons] at h
        omega
      calc merkleStep ((a :: b :: r) ++ [x, y])
          = sha256 (a ++ b) :: merkleStep (r ++ [x, y]) := rfl
        _ = sha256 (a ++ b) :: (merkleStep r ++ [sha256 (x ++ y)]) := by
              rw [merkleStep_even2 r x y hr]
        _ = merkleStep (a :: b :: r) ++ [sha256 (x ++ y)] := rfl

/-- With at most one element left the reduction loop does not run, whatever
the fuel. -/
theorem merkleUpFuel_small (f : Nat) (l : List Hash) (hl : l.length ≤ 1) :
    merkleUpFuel f l = l.headD zeros32 := by
  cases f with
  | zero => rfl
  | succ k =>
      rw [merkleUpFuel, if_neg]
      omega

/-- The Merkle reduction is fuel-irrelevant once the fuel covers the level
length: the level strictly shrinks every iteration. -/
theorem merkleUpFuel_congr : ∀ (n : Nat) (l : List Hash) (f f' : Nat),
    l.length ≤ n → l.length ≤ f → l.length ≤ f' →
    merkleUpFuel f l = merkleUpFuel f' l := by
  intro n
  induction n with
  | zero =>
      intro l f f' hn _ _
      have : l.length ≤ 1 := by omega
      rw [merkleUpFuel_small f l this, merkleUpFuel_small f' l this]
  | succ k ih =>
      intro l f f' hn hf hf'
      by_cases hsmall : l.length ≤ 1
      · rw [merkleUpFuel_small f l hsmall, merkleUpFuel_small f' l hsmall]
      · have h2 : 2 ≤ l.length := by omega
        obtain ⟨f0, rfl⟩ : ∃ f0, f = f0 + 1 := ⟨f - 1, by omega⟩
        obtain ⟨f0', rfl⟩ : ∃ f0', f' = f0' + 1 := ⟨f' - 1, by omega⟩
        rw [merkleUpFuel, if_pos (by omega), merkleUpFuel, if_pos (by omega)]
        have hlen := merkleStep_length l
        exact ih (merkleStep l) f0 f0' (by omega) (by omega) (by omega)

/-! ## Claim C7: merkle_root base cases and odd-level duplication -/

/-- C7: the empty transaction list yields the all-zero sentinel; a singleton
yields the SHA-256 hash of the canonical serialization; a pair yields the
hash of the two leaf hashes concatenated; and on any level of odd cardinality
the trailing element is paired with itself. -/
theorem C7_merkle_root_structure :
    merkle_root [] = zeros32 ∧
    (∀ t, merkle_root [t] = sha256 (tx_canonical_bytes t)) ∧
    (∀ t1 t2, merkle_root [t1, t2] =
        sha256 (sha256 (tx_canonical_bytes t1) ++ sha256 (tx_canonical_bytes t2))) ∧
    (∀ (ys : List Hash) (x : Hash), ys.length % 2 = 0 →
        merkleStep (ys ++ [x]) = merkleStep ys ++ [sha256 (x ++ x)]) :=
  ⟨rfl, fun _ => rfl, fun _ _ => rfl, merkleStep_odd⟩

/-- C7 witness: the odd-level clause applied at a concrete level. -/
theorem C7_witness :
    merkleStep ([] ++ [zeros32]) = merkleStep [] ++ [sha256 (zeros32 ++ zeros32)] :=
  C7_merkle_root_structure.2.2.2 [] zeros32 rfl

/-! ## Claim C10: duplication makes merkle_root non-injective -/


set_option maxRecDepth 1000000 in
/-- C10: appending a copy of the last transaction to an odd-length list of at
least three transactions leaves the Merkle root unchanged (stated for any
list `us ++ [t]` of odd length at least 3, and in particular for `[a, b, c]`),
while the corresponding equation fails for a singleton list, shown at a
concrete transaction. -/
theorem C10_merkle_root_duplication :
    (∀ a b c : Transaction, merkle_root [a, b, c] = merkle_root [a, b, c, c]) ∧
    (∀ (us : List Transaction) (t : Transaction),
        (us ++ [t]).length % 2 = 1 → 3 ≤ (us ++ [t]).length →
        merkle_root (us ++ [t]) = merkle_root (us ++ [t, t])) ∧
    merkle_root [c10Tx] ≠ merkle_root [c10Tx, c10Tx] := by
  refine ⟨fun a b c => rfl, ?_, by decide⟩
  intro us t hodd h3
  have hus : us.length % 2 = 0 := by
    simp only [List.length_append, List.length_cons, List.length_nil] at hodd
    omega
  have hus2 : 2 ≤ us.length := by
    simp only [List.length_append, List.length_cons, List.length_nil] at h3
    omega
  have hne1 : (us ++ [t]).isEmpty = false := by
    cases us <;> rfl
  have hne2 : (us ++ [t, t]).isEmpty = false := by
    cases us <;> rfl
  have hmaplen : (us.map txLeafHash).length = us.length := List.length_map us txLeafHash
  rw [merkle_root, merkle_root, hne1, hne2]
  simp only [Bool.false_eq_true, if_false, List.map_append]
  have hm1 : us.map txLeafHash ++ [t].map txLeafHash
      = us.map txLeafHash ++ [txLeafHash t] := rfl
  have hm2 : us.map txLeafHash ++ [t, t].map txLeafHash
      = us.map txLeafHash ++ [txLeafHash t, txLeafHash t] := rfl
  rw [hm1, hm2]
  have hlen1 : (us ++ [t]).length = us.length + 1 := by simp
  have hlen2 : (us ++ [t, t]).length = us.length + 2 := by simp
  rw [hlen1, hlen2]
  have hL1 : (us.map txLeafHash ++ [txLeafHash t]).length = us.length + 1 := by simp
  have hL2 : (us.map txLeafHash ++ [txLeafHash t, txLeafHash t]).length = us.length + 2 := by
    simp
  rw [merkleUpFuel, if_pos (by omega), merkleUpFuel, if_pos (by omega)]
  rw [merkleStep_odd _ _ (by omega), merkleStep_even2 _ _ _ (by omega)]
  have hsl : (merkleStep (us.map txLeafHash)
      ++ [sha256 (txLeafHash t ++ txLeafHash t)]).length = (us.length + 1) / 2 + 1 := by
    simp [merkleStep_length, hmaplen]
  exact merkleUpFuel_congr (us.length + 1) _ us.length (us.length + 1)
    (by omega) (by omega) (by omega)

/-- C10 witness: the odd-length clause applied to a concrete three-element
list. -/
theorem C10_witness :
    merkle_root [c10Tx, c10Tx, c10Tx] = merkle_root [c10Tx, c10Tx, c10Tx, c10Tx] :=
  C10_merkle_root_duplication.2.1 [c10Tx, c10Tx] c10Tx rfl (by decide)

/-! ## Claim C8: ensure_genesis bootstraps once and is idempotent -/

/-- The sequential miner only searches the nonce: every other field of the
returned block equals the corresponding field of the candidate. -/
theorem mine_genesis_block_fields : ∀ (fuel : Nat) (blk : Block) (target : Nat) (b : Block),
    mine_genesis_block fuel blk target = some b →
    b.header.index = blk.header.index ∧
    b.header.previous_hash = blk.header.previous_hash ∧
    b.header.data_hash = blk.header.data_hash ∧
    b.header.merkle_root = blk.header.merkle_root ∧
    b.data = blk.data ∧ b.txs = blk.txs := by
  intro fuel
  induction fuel with
  | zero => intro blk target b h; simp [mine_genesis_block] at h
  | succ k ih =>
      intro blk target b h
      rw [mine_genesis_block] at h
      split at h
      next => cases h; exact ⟨rfl, rfl, rfl, rfl, rfl, rfl⟩
      next =>
        have := ih _ _ _ h
        simpa using this

/-- C8: starting from a fresh store, when `ensure_genesis` returns (the
sequential mining loop terminates), the store holds at index 0 a
zero-transaction genesis block with zeroed previous hash and merkle root and
the marker payload, the tip height is 0, and every later `ensure_genesis`
call returns the state unchanged, so the stored genesis bytes stay
identical. -/
theorem C8_ensure_genesis_idempotent (fuel ts : Nat) :
    match ensure_genesis fuel ts emptyStore with
    | none => True
    | some s1 =>
        (match get_block 0 s1 with
         | none => False
         | some gb =>
             gb.header.index = 0 ∧ gb.header.previous_hash = zeros32 ∧
             gb.header.merkle_root = zeros32 ∧ gb.txs = [] ∧
             gb.data = (genesis_block ts).data) ∧
        tip_height s1 = 0 ∧
        (∀ fuel2 ts2, ensure_genesis fuel2 ts2 s1 = some s1) := by
  cases hm : mine_genesis_block fuel (genesis_block ts) POW_TARGET_DIFFICULTY with
  | none =>
      have hens : ensure_genesis fuel ts emptyStore = none := by
        simp [ensure_genesis, hm, emptyStore, tip_height, get_block]
      rw [hens]
      trivial
  | some gb =>
      have hens : ensure_genesis fuel ts emptyStore = some (put_block gb emptyStore) := by
        simp [ensure_genesis, hm, emptyStore, tip_height, get_block]
      rw [hens]
      obtain ⟨hidx, hprev, _, hmr, hdata, htxs⟩ :=
        mine_genesis_block_fields fuel (genesis_block ts) POW_TARGET_DIFFICULTY gb hm
      have hidx0 : gb.header.index = 0 := hidx.trans rfl
      have hput : put_block gb emptyStore =
          ⟨[(gb.header.index, gb)], some gb.header.index, some gb.hash⟩ := by
        simp [put_block, get_block, emptyStore, List.lookup]
      have hgb : get_block 0 (put_block gb emptyStore) = some gb := by
        rw [hput, hidx0]
        simp [get_block, List.lookup]
      refine ⟨?_, ?_, ?_⟩
      · rw [hgb]
        exact ⟨hidx0, hprev.trans rfl, hmr.trans rfl, htxs.trans rfl, hdata⟩
      · rw [hput, hidx0]
        rfl
      · intro fuel2 ts2
        have hcond : (get_block 0 (put_block gb emptyStore)).isNone = false := by
          rw [hgb]
          rfl
        simp [ensure_genesis, hcond]

end Ledger
